import Mathlib

/-!
Verification of the news-analysis MCP server (`mcp_server.py`) of
KaayaanAi/MCP-News-v2.1 against its natural-language specification.

The Python code is shallowly embedded: per-item analysis results are records
with optional fields (a Python dict may lack a key), numbers are exact
rationals, and each handler / aggregation routine of `mcp_server.py` becomes a
Lean function that mirrors the source line by line.  Components that live in
`news_analyzer.py` (which is not part of the provided sources) are modelled
from the spec and marked as such in their doc comments.
-/

/-- A per-item analysis result as consumed by `_generate_batch_summary`:
a Python dict whose relevant keys may be absent (`Option`).  `confidence`
is modelled as an exact rational. -/
structure AnalysisRecord where
  impact : Option String
  confidence : Option Rat
  affected_coins : Option (List String)
  error : Option String
deriving DecidableEq

/-- Python truthiness of `result.get("error")`: `None` and the empty string
are falsy, any other string is truthy. -/
def pyTruthyStr : Option String → Bool
  | none => false
  | some s => !(s == "")

/-- `result.get("impact", "Neutral")`. -/
def impactOf (r : AnalysisRecord) : String := r.impact.getD "Neutral"

/-- `result.get("confidence", 0)`. -/
def confOf (r : AnalysisRecord) : Rat := r.confidence.getD 0

/-- `result.get("affected_coins", [])`. -/
def coinsOf (r : AnalysisRecord) : List String := r.affected_coins.getD []

/-- Python `round` to an integer: round half to even (banker's rounding),
on exact rationals. -/
def pyRoundHalfEven (q : Rat) : Int :=
  let n := q.floor
  let frac := q - (n : Rat)
  if frac < (1 : Rat)/2 then n
  else if (1 : Rat)/2 < frac then n + 1
  else if n % 2 = 0 then n else n + 1

/-- Python `round(q, 1)`: round to one decimal place, half to even. -/
def round1 (q : Rat) : Rat := (pyRoundHalfEven (q * 10) : Rat) / 10

/-- The mutable loop state of `_generate_batch_summary`: the six counters of
the `summary` dict plus the `confidences` and `all_coins` lists. -/
structure SummaryState where
  positive_count : Nat
  negative_count : Nat
  neutral_count : Nat
  high_confidence_count : Nat
  low_confidence_count : Nat
  error_count : Nat
  confidences : List Rat
  all_coins : List String
deriving DecidableEq

/-- State at the top of the loop: all counters 0, both lists empty. -/
def initSummaryState : SummaryState := ⟨0, 0, 0, 0, 0, 0, [], []⟩

/-- One iteration of the `for result in results` loop of
`_generate_batch_summary` (mcp_server.py lines 508-531): bucket the impact
with the if/elif/else chain, bucket the confidence at the `> 75` threshold,
count truthy `error` fields, append the confidence, extend `all_coins`. -/
def summaryStep (st : SummaryState) (result : AnalysisRecord) : SummaryState :=
  let impact := impactOf result
  let confidence := confOf result
  { positive_count := st.positive_count + (if impact = "Positive" then 1 else 0),
    negative_count := st.negative_count +
      (if impact = "Positive" then 0 else if impact = "Negative" then 1 else 0),
    neutral_count := st.neutral_count +
      (if impact = "Positive" then 0 else if impact = "Negative" then 0 else 1),
    high_confidence_count := st.high_confidence_count +
      (if 75 < confidence then 1 else 0),
    low_confidence_count := st.low_confidence_count +
      (if 75 < confidence then 0 else 1),
    error_count := st.error_count + (if pyTruthyStr result.error then 1 else 0),
    confidences := st.confidences ++ [confidence],
    all_coins := st.all_coins ++ coinsOf result }

/-- Keys of `collections.Counter(xs)` in Python dict order: first-occurrence
order of the elements of `xs`, each key once. -/
def firstDedup : List String → List String
  | [] => []
  | x :: xs => x :: (firstDedup xs).filter (fun y => decide (y ≠ x))

/-- `collections.Counter(xs).items()`: each distinct element of `xs` in
first-occurrence order, paired with its number of occurrences. -/
def counterList (xs : List String) : List (String × Nat) :=
  (firstDedup xs).map (fun k => (k, xs.count k))

/-- `Counter(xs).most_common(n)`: documented as
`sorted(items, key=count, reverse=True)[:n]`, a stable descending sort by
count (ties keep dict order, i.e. first-occurrence order) truncated to `n`. -/
def most_common (n : Nat) (xs : List String) : List (String × Nat) :=
  (List.insertionSort (fun p q => q.2 ≤ p.2) (counterList xs)).take n

/-- The summary dict returned by `_generate_batch_summary`. -/
structure BatchSummary where
  positive_count : Nat
  negative_count : Nat
  neutral_count : Nat
  high_confidence_count : Nat
  low_confidence_count : Nat
  error_count : Nat
  avg_confidence : Rat
  top_affected_coins : List (String × Nat)
deriving DecidableEq

/-- `_generate_batch_summary` (mcp_server.py lines 492-546): fold the loop
body over the results, then fill in `avg_confidence` (guarded by
`if confidences:`) and `top_affected_coins` (guarded by `if all_coins:`,
via `Counter.most_common(5)`). -/
def generate_batch_summary (results : List AnalysisRecord) : BatchSummary :=
  let st := results.foldl summaryStep initSummaryState
  { positive_count := st.positive_count,
    negative_count := st.negative_count,
    neutral_count := st.neutral_count,
    high_confidence_count := st.high_confidence_count,
    low_confidence_count := st.low_confidence_count,
    error_count := st.error_count,
    avg_confidence :=
      if st.confidences.isEmpty then 0
      else round1 (st.confidences.sum / (st.confidences.length : Rat)),
    top_affected_coins :=
      if st.all_coins.isEmpty then [] else most_common 5 st.all_coins }

/-- The flattened sequence of all coin mentions across the results, in input
order: the contents of `all_coins` after the summary loop. -/
def flatCoins (rs : List AnalysisRecord) : List String := (rs.map coinsOf).flatten

/-- The order in which `most_common` reports coin/count pairs: strictly more
mentions first, equal mention counts broken by first occurrence in the
flattened coin list. -/
def coinRank (xs : List String) (p q : String × Nat) : Prop :=
  q.2 < p.2 ∨ (p.2 = q.2 ∧ List.indexOf p.1 xs < List.indexOf q.1 xs)

/-- Concrete batch input for exercising the top-coins summary: flattened
coin mentions are BTC, ETH, ETH, BTC, DOGE. -/
def c2Input : List AnalysisRecord :=
  [⟨some "Positive", some 80, some ["BTC", "ETH"], none⟩,
   ⟨some "Negative", some 60, some ["ETH", "BTC", "DOGE"], none⟩]

/-- Batch input with six distinct coins, each mentioned once: a full
frequency tie at the five-item truncation boundary. -/
def c2TieInput : List AnalysisRecord :=
  [⟨some "Neutral", some 10, some ["A", "B", "C", "D", "E", "F"], none⟩]

/-- One news item of a batch request: required title/summary, optional
source. -/
structure NewsItem where
  title : String
  summary : String
  source : Option String
deriving DecidableEq

/-- The fields a successful per-item scoring produces. -/
structure ScoredFields where
  impact : String
  confidence : Rat
  affected_coins : List String
deriving DecidableEq

/-- Modelled from the spec: scoring of a single batch item inside
`CryptoNewsAnalyzer.analyze_batch` (news_analyzer.py, not among the provided
sources).  Spec section 4.4: a failure scoring one item yields a result
carrying `error` set and neutral defaults (impact Neutral, confidence 0);
success yields the scored fields with no `error`.  The scorer itself is the
abstract parameter `score`, failures being its `Except.error` outcomes. -/
def processItem (score : NewsItem → Except String ScoredFields)
    (item : NewsItem) : AnalysisRecord :=
  match score item with
  | .ok r => ⟨some r.impact, some r.confidence, some r.affected_coins, none⟩
  | .error e => ⟨some "Neutral", some 0, some [], some e⟩

/-- Modelled from the spec: `CryptoNewsAnalyzer.analyze_batch`
(news_analyzer.py, not among the provided sources).  Spec section 4.4:
processes each item independently and in input order; a failure scoring one
item must not abort the remaining items; output order matches input order
exactly. -/
def analyze_batch (score : NewsItem → Except String ScoredFields)
    (items : List NewsItem) : List AnalysisRecord :=
  items.map (processItem score)

/-- A JSON-RPC error object as built by `create_mcp_error`. -/
structure McpError where
  code : Int
  message : String
deriving DecidableEq

/-- Outcome of `_handle_batch_analysis`: an error response, or a result
payload with index-annotated results, `total_items` and the summary. -/
inductive BatchResponse where
  | failure (e : McpError)
  | ok (results : List (Nat × AnalysisRecord)) (total_items : Nat) (summary : BatchSummary)
deriving DecidableEq

/-- `_handle_batch_analysis` (mcp_server.py lines 285-335): reject a falsy
(empty) `news_items`, reject more than 50 items, otherwise run
`analyze_batch`, attach `item_index` by enumeration, and answer with the
results, their count and `_generate_batch_summary` of them. -/
def handle_batch_analysis (score : NewsItem → Except String ScoredFields)
    (news_items : List NewsItem) : BatchResponse :=
  if news_items.isEmpty then
    .failure ⟨-32602, "Invalid params: news_items array required"⟩
  else if 50 < news_items.length then
    .failure ⟨-32602, "Batch size limit exceeded (max 50 items)"⟩
  else
    let results := analyze_batch score news_items
    .ok results.enum results.length (generate_batch_summary results)

/-- Concrete per-item scorer for the C1 witness: fails on an empty title. -/
def c1Score : NewsItem → Except String ScoredFields := fun item =>
  if item.title = "" then .error "empty title"
  else .ok ⟨"Positive", 80, ["BTC"]⟩

/-- Three batch items, the middle one with an empty title. -/
def c1Items : List NewsItem :=
  [⟨"a", "s", none⟩, ⟨"", "s", none⟩, ⟨"b", "s", none⟩]

/-- Trivial scorer used for the C6 theorems. -/
def c6Score : NewsItem → Except String ScoredFields := fun _ => .ok ⟨"Neutral", 50, []⟩

/-- Arguments of a single-analysis request: each of the three keys may be
absent from the arguments dict. -/
structure SingleArgs where
  title : Option String
  summary : Option String
  source : Option String
deriving DecidableEq

/-- Outcome of `_handle_single_analysis`: a validation error, a successful
analysis (with the optional source attached), or an analysis failure. -/
inductive SingleResponse where
  | invalidParams (msg : String)
  | analyzed (result : ScoredFields) (source : Option String)
  | failed (msg : String)
deriving DecidableEq

/-- The post-validation body of `_handle_single_analysis` (mcp_server.py
lines 262-283): invoke the analyzer (abstract parameter `analyze`, its
exceptions being `Except.error`); on success attach the trimmed `source`
when truthy; on exception answer with the analysis-failed error. -/
def runSingleAnalysis (analyze : String → String → Except String ScoredFields)
    (title summary source : String) : SingleResponse :=
  match analyze title summary with
  | .ok r => .analyzed r (if source = "" then none else some source)
  | .error e => .failed e

/-- Python `str.strip()`: remove leading and trailing whitespace, defined on
the character list so that it is kernel-computable. -/
def pyStrip (s : String) : String :=
  String.mk (((s.data.dropWhile Char.isWhitespace).reverse.dropWhile
    Char.isWhitespace).reverse)

/-- `_handle_single_analysis` (mcp_server.py lines 250-283): read and strip
title/summary/source (missing keys default to the empty string), reject when
title or summary is falsy (empty), otherwise run the analysis. -/
def handle_single_analysis (analyze : String → String → Except String ScoredFields)
    (args : SingleArgs) : SingleResponse :=
  let title := pyStrip (args.title.getD "")
  let summary := pyStrip (args.summary.getD "")
  let source := pyStrip (args.source.getD "")
  if title = "" ∨ summary = "" then
    .invalidParams "Invalid params: title and summary required"
  else
    runSingleAnalysis analyze title summary source

/-- Trivial analyzer used for the C5 witness. -/
def c5Analyze : String → String → Except String ScoredFields :=
  fun _ _ => .ok ⟨"Neutral", 50, []⟩

/-- A regex word character (`\w`): alphanumeric or underscore. -/
def isWordChar (c : Char) : Bool := c.isAlphanum || c == '_'

/-- Word-ness of the character at position `i` of `text`; positions outside
the text count as non-word (the virtual characters beyond the ends). -/
def isWordAt (text : List Char) (i : Nat) : Bool := isWordChar (text.getD i ' ')

/-- The regex `\b` assertion at gap position `i` of `text`: the word-ness of
the character left of the gap differs from the word-ness of the character
right of it. -/
def boundaryAt (text : List Char) (i : Nat) : Bool :=
  (if i = 0 then false else isWordAt text (i - 1)) != isWordAt text i

/-- Case-insensitive occurrence of the literal (`re.escape`d) pattern at
position `i` of `text`, as matched under `re.IGNORECASE`. -/
def lowerMatchAt (text pat : List Char) (i : Nat) : Bool :=
  ((text.drop i).take pat.length).map Char.toLower == pat.map Char.toLower

/-- Embedding of mcp_server.py line 388/395:
`re.search(r'\b' + re.escape(keyword) + r'\b', text, re.IGNORECASE)` found a
match: some start position carries a `\b` boundary, the literal pattern
case-insensitively, and a closing `\b` boundary. -/
def wbSearch (text pat : List Char) : Bool :=
  (List.range (text.length + 1)).any
    (fun i => boundaryAt text i && lowerMatchAt text pat i
      && boundaryAt text (i + pat.length))

/-- A word-boundary-anchored, case-insensitive occurrence of `pat`
somewhere in `text` (the declarative reading of the regex search). -/
def WBMatch (text pat : List Char) : Prop :=
  ∃ i, ((text.drop i).take pat.length).map Char.toLower = pat.map Char.toLower
    ∧ boundaryAt text i = true ∧ boundaryAt text (i + pat.length) = true

/-- The keyword-collection loop of `_handle_keyword_analysis` (mcp_server.py
lines 387-399) over one lexicon (phrase-to-weight pairs): keep exactly the
entries whose phrase the regex search finds in the text; with
`include_weights` each kept entry is the phrase paired with its weight. -/
def matched_keywords (lexicon : List (String × Rat)) (text : List Char) :
    List (String × Rat) :=
  lexicon.filter (fun p => wbSearch text p.1.toList)

/-- The same loop without `include_weights`: only the phrases are kept. -/
def matched_keyword_names (lexicon : List (String × Rat)) (text : List Char) :
    List String :=
  (matched_keywords lexicon text).map Prod.fst

/-- Two-entry lexicon for the C7 witness. -/
def c7Lexicon : List (String × Rat) := [("eth", 2), ("ban", 1)]

/-- Witness text: "eth" occurs boundary-anchored (as "ETH") and also inside
the longer word "Ethan". -/
def c7Text : List Char := String.toList "Ethan discusses ETH ban"

/-- Witness text in which "eth" occurs only inside a longer word. -/
def c7TextSub : List Char := String.toList "Bethany"

theorem foldl_positive_count (rs : List AnalysisRecord) (st : SummaryState) :
    (rs.foldl summaryStep st).positive_count
      = st.positive_count + rs.countP (fun r => decide (impactOf r = "Positive")) := by
  induction rs generalizing st with
  | nil => simp
  | cons r rs ih =>
      rw [List.foldl_cons, ih, List.countP_cons]
      simp only [summaryStep]
      by_cases hp : impactOf r = "Positive" <;> simp [hp] <;> omega

theorem foldl_negative_count (rs : List AnalysisRecord) (st : SummaryState) :
    (rs.foldl summaryStep st).negative_count
      = st.negative_count + rs.countP (fun r => decide (impactOf r = "Negative")) := by
  induction rs generalizing st with
  | nil => simp
  | cons r rs ih =>
      rw [List.foldl_cons, ih, List.countP_cons]
      simp only [summaryStep]
      by_cases hp : impactOf r = "Positive"
      · have hn : ¬ impactOf r = "Negative" := by rw [hp]; decide
        simp [hp, hn]
      · by_cases hn : impactOf r = "Negative" <;> simp [hp, hn] <;> omega

theorem foldl_neutral_count (rs : List AnalysisRecord) (st : SummaryState) :
    (rs.foldl summaryStep st).neutral_count
      = st.neutral_count + rs.countP
          (fun r => decide (impactOf r ≠ "Positive" ∧ impactOf r ≠ "Negative")) := by
  induction rs generalizing st with
  | nil => simp
  | cons r rs ih =>
      rw [List.foldl_cons, ih, List.countP_cons]
      simp only [summaryStep]
      by_cases hp : impactOf r = "Positive"
      · simp [hp]
      · by_cases hn : impactOf r = "Negative" <;> simp [hp, hn] <;> omega

theorem foldl_high_count (rs : List AnalysisRecord) (st : SummaryState) :
    (rs.foldl summaryStep st).high_confidence_count
      = st.high_confidence_count + rs.countP (fun r => decide ((75 : Rat) < confOf r)) := by
  induction rs generalizing st with
  | nil => simp
  | cons r rs ih =>
      rw [List.foldl_cons, ih, List.countP_cons]
      simp only [summaryStep]
      by_cases hc : (75 : Rat) < confOf r <;> simp [hc] <;> omega

theorem foldl_low_count (rs : List AnalysisRecord) (st : SummaryState) :
    (rs.foldl summaryStep st).low_confidence_count
      = st.low_confidence_count + rs.countP (fun r => decide (¬ (75 : Rat) < confOf r)) := by
  induction rs generalizing st with
  | nil => simp
  | cons r rs ih =>
      rw [List.foldl_cons, ih, List.countP_cons]
      simp only [summaryStep]
      by_cases hc : (75 : Rat) < confOf r <;> simp [hc] <;> omega

theorem foldl_confidences (rs : List AnalysisRecord) (st : SummaryState) :
    (rs.foldl summaryStep st).confidences = st.confidences ++ rs.map confOf := by
  induction rs generalizing st with
  | nil => simp
  | cons r rs ih =>
      rw [List.foldl_cons, ih]
      simp [summaryStep]

theorem foldl_all_coins (rs : List AnalysisRecord) (st : SummaryState) :
    (rs.foldl summaryStep st).all_coins = st.all_coins ++ (rs.map coinsOf).flatten := by
  induction rs generalizing st with
  | nil => simp
  | cons r rs ih =>
      rw [List.foldl_cons, ih]
      simp [summaryStep]

/-- C3: `_generate_batch_summary` applied to the empty list of results returns
all-zero counts, average confidence 0.0 and an empty top-coins list; being a
total function of the embedding it raises no error. -/
theorem claim_C3 : generate_batch_summary [] =
    { positive_count := 0, negative_count := 0, neutral_count := 0,
      high_confidence_count := 0, low_confidence_count := 0, error_count := 0,
      avg_confidence := 0, top_affected_coins := [] } := by
  rfl

/-- C4: for every list of results, `positive_count + negative_count +
neutral_count` of the batch summary equals the number of input results: the
if/elif/else chain puts each result in exactly one impact bucket. -/
theorem claim_C4 (rs : List AnalysisRecord) :
    (generate_batch_summary rs).positive_count
      + (generate_batch_summary rs).negative_count
      + (generate_batch_summary rs).neutral_count = rs.length := by
  have key : ∀ (l : List AnalysisRecord) (st : SummaryState),
      (l.foldl summaryStep st).positive_count + (l.foldl summaryStep st).negative_count
        + (l.foldl summaryStep st).neutral_count
        = st.positive_count + st.negative_count + st.neutral_count + l.length := by
    intro l
    induction l with
    | nil => intro st; simp
    | cons r tl ih =>
        intro st
        rw [List.foldl_cons, ih]
        simp only [summaryStep, List.length_cons]
        by_cases h1 : impactOf r = "Positive"
        · simp [h1]; omega
        · by_cases h2 : impactOf r = "Negative" <;> simp [h1, h2] <;> omega
  have h := key rs initSummaryState
  simp only [generate_batch_summary, initSummaryState] at *
  omega

/-- C8: the batch summary counts a result as high-confidence exactly when its
confidence is strictly greater than 75 and as low-confidence otherwise, so the
two counts always sum to the number of input results. -/
theorem claim_C8 (rs : List AnalysisRecord) :
    (generate_batch_summary rs).high_confidence_count
        = (rs.filter (fun r => decide ((75 : Rat) < confOf r))).length
      ∧ (generate_batch_summary rs).low_confidence_count
        = (rs.filter (fun r => decide (¬ (75 : Rat) < confOf r))).length
      ∧ (generate_batch_summary rs).high_confidence_count
        + (generate_batch_summary rs).low_confidence_count = rs.length := by
  have hh := foldl_high_count rs initSummaryState
  have hl := foldl_low_count rs initSummaryState
  have key : ∀ (l : List AnalysisRecord) (st : SummaryState),
      (l.foldl summaryStep st).high_confidence_count
        + (l.foldl summaryStep st).low_confidence_count
        = st.high_confidence_count + st.low_confidence_count + l.length := by
    intro l
    induction l with
    | nil => intro st; simp
    | cons r tl ih =>
        intro st
        rw [List.foldl_cons, ih]
        simp only [summaryStep, List.length_cons]
        by_cases hc : (75 : Rat) < confOf r <;> simp [hc] <;> omega
  have hk := key rs initSummaryState
  rw [← List.countP_eq_length_filter, ← List.countP_eq_length_filter]
  refine ⟨?_, ?_, ?_⟩
  · simp only [generate_batch_summary, initSummaryState] at *
    omega
  · simp only [generate_batch_summary, initSummaryState] at *
    omega
  · simp only [generate_batch_summary, initSummaryState] at *
    omega

/-- C9: on any non-empty list of results the batch summary's
`avg_confidence` is the arithmetic mean of the results' confidence values
(missing ones defaulting to 0) rounded to one decimal place. -/
theorem claim_C9 (rs : List AnalysisRecord) (h : rs ≠ []) :
    (generate_batch_summary rs).avg_confidence
      = round1 ((rs.map confOf).sum / (rs.length : Rat)) := by
  have hc : (rs.foldl summaryStep initSummaryState).confidences = rs.map confOf := by
    simpa [initSummaryState] using foldl_confidences rs initSummaryState
  have hne : (rs.map confOf).isEmpty = false := by
    cases rs with
    | nil => exact absurd rfl h
    | cons a tl => rfl
  simp only [generate_batch_summary, hc, hne, Bool.false_eq_true, if_false,
    List.length_map]

/-- C9 witness: at the concrete two-result input the hypothesis holds and the
average is the rounded mean. -/
theorem claim_C9_witness :
    ((([⟨some "Positive", some 80, some ["BTC"], none⟩,
        ⟨none, some 1, none, none⟩] : List AnalysisRecord) ≠ [])
      ∧ (generate_batch_summary
          [⟨some "Positive", some 80, some ["BTC"], none⟩,
           ⟨none, some 1, none, none⟩]).avg_confidence
          = round1 ((([⟨some "Positive", some 80, some ["BTC"], none⟩,
              ⟨none, some 1, none, none⟩] : List AnalysisRecord).map confOf).sum / 2)
      ∧ (generate_batch_summary
          [⟨some "Positive", some 80, some ["BTC"], none⟩,
           ⟨none, some 1, none, none⟩]).avg_confidence = 81/2) := by
  refine ⟨by decide, claim_C9 _ (by decide), ?_⟩
  rw [claim_C9 _ (by decide)]
  norm_num [confOf, round1, pyRoundHalfEven, Rat.floor]

/-- C10: the summary loop body is total over malformed records: a missing or
non-Positive/non-Negative `impact` is bucketed as Neutral, a missing
`confidence` counts as 0 (hence low-confidence, and 0 enters the average),
and a missing `affected_coins` contributes no coin mentions. -/
theorem claim_C10 (st : SummaryState) (r : AnalysisRecord) :
    ((r.impact = none ∨ ∃ s, r.impact = some s ∧ s ≠ "Positive" ∧ s ≠ "Negative") →
        (summaryStep st r).neutral_count = st.neutral_count + 1
        ∧ (summaryStep st r).positive_count = st.positive_count
        ∧ (summaryStep st r).negative_count = st.negative_count)
    ∧ (r.confidence = none →
        (summaryStep st r).low_confidence_count = st.low_confidence_count + 1
        ∧ (summaryStep st r).high_confidence_count = st.high_confidence_count
        ∧ (summaryStep st r).confidences = st.confidences ++ [0])
    ∧ (r.affected_coins = none → (summaryStep st r).all_coins = st.all_coins) := by
  refine ⟨?_, ?_, ?_⟩
  · intro himp
    have hkey : impactOf r ≠ "Positive" ∧ impactOf r ≠ "Negative" := by
      rcases himp with hnone | ⟨s, hs, hsp, hsn⟩
      · simp [impactOf, hnone]
      · simp [impactOf, hs, hsp, hsn]
    simp [summaryStep, hkey.1, hkey.2]
  · intro hconf
    have hc : confOf r = 0 := by simp [confOf, hconf]
    have : ¬ (75 : Rat) < confOf r := by rw [hc]; decide
    simp [summaryStep, this, hc]
  · intro hco
    simp [summaryStep, coinsOf, hco]

/-- C10 witness: a concrete record with bogus impact and missing confidence
and coins is bucketed Neutral/low with a 0 confidence and no coin mentions. -/
theorem claim_C10_witness :
    (summaryStep initSummaryState ⟨some "Bogus", none, none, none⟩).neutral_count = 1
    ∧ (summaryStep initSummaryState ⟨some "Bogus", none, none, none⟩).positive_count = 0
    ∧ (summaryStep initSummaryState ⟨some "Bogus", none, none, none⟩).low_confidence_count = 1
    ∧ (summaryStep initSummaryState ⟨some "Bogus", none, none, none⟩).confidences = [0]
    ∧ (summaryStep initSummaryState ⟨some "Bogus", none, none, none⟩).all_coins = [] := by
  have h := claim_C10 initSummaryState ⟨some "Bogus", none, none, none⟩
  have h1 := h.1 (Or.inr ⟨"Bogus", rfl, by decide, by decide⟩)
  have h2 := h.2.1 rfl
  have h3 := h.2.2 rfl
  exact ⟨h1.1, h1.2.1, h2.1, h2.2.2, h3⟩

theorem mem_firstDedup (xs : List String) (a : String) : a ∈ firstDedup xs ↔ a ∈ xs := by
  induction xs with
  | nil => simp [firstDedup]
  | cons x l ih =>
      simp only [firstDedup, List.mem_cons, List.mem_filter, ih]
      constructor
      · rintro (rfl | ⟨h, _⟩)
        · exact Or.inl rfl
        · exact Or.inr h
      · rintro (rfl | h)
        · exact Or.inl rfl
        · by_cases hax : a = x
          · exact Or.inl hax
          · exact Or.inr ⟨h, decide_eq_true hax⟩

theorem firstDedup_nodup (xs : List String) : (firstDedup xs).Nodup := by
  induction xs with
  | nil => simp [firstDedup]
  | cons x l ih =>
      simp only [firstDedup]
      refine List.nodup_cons.mpr ⟨?_, List.Nodup.filter _ ih⟩
      intro hx
      have hxx := (List.mem_filter.mp hx).2
      simp at hxx

theorem firstDedup_pairwise (xs : List String) :
    (firstDedup xs).Pairwise (fun a b => List.indexOf a xs < List.indexOf b xs) := by
  induction xs with
  | nil => simp [firstDedup]
  | cons x l ih =>
      simp only [firstDedup]
      refine List.Pairwise.cons ?_ ?_
      · intro b hb
        have hbne : b ≠ x := by simpa using (List.mem_filter.mp hb).2
        rw [List.indexOf_cons_self, List.indexOf_cons_ne _ (Ne.symm hbne)]
        exact Nat.succ_pos _
      · refine List.Pairwise.imp_of_mem ?_ (List.Pairwise.filter _ ih)
        intro a b ha hb hlt
        have hane : a ≠ x := by simpa using (List.mem_filter.mp ha).2
        have hbne : b ≠ x := by simpa using (List.mem_filter.mp hb).2
        rw [List.indexOf_cons_ne _ (Ne.symm hane), List.indexOf_cons_ne _ (Ne.symm hbne)]
        exact Nat.succ_lt_succ hlt

theorem counterList_map_fst (xs : List String) :
    (counterList xs).map Prod.fst = firstDedup xs := by
  unfold counterList
  rw [List.map_map]
  exact List.map_id _

theorem mem_counterList {xs : List String} {p : String × Nat} (hp : p ∈ counterList xs) :
    p.1 ∈ xs ∧ p.2 = xs.count p.1 := by
  obtain ⟨k, hk, rfl⟩ := List.mem_map.mp hp
  exact ⟨(mem_firstDedup xs k).mp hk, rfl⟩

theorem counterList_mem_of_mem {xs : List String} {c : String} (hc : c ∈ xs) :
    (c, xs.count c) ∈ counterList xs :=
  List.mem_map.mpr ⟨c, (mem_firstDedup xs c).mpr hc, rfl⟩

theorem counterList_pairwise (xs : List String) :
    (counterList xs).Pairwise (fun p q => List.indexOf p.1 xs < List.indexOf q.1 xs) := by
  unfold counterList
  rw [List.pairwise_map]
  exact firstDedup_pairwise xs

theorem pairwise_coinRank_orderedInsert (xs : List String) :
    ∀ (l : List (String × Nat)) (x : String × Nat),
      l.Pairwise (coinRank xs) →
      (∀ y ∈ l, List.indexOf x.1 xs < List.indexOf y.1 xs) →
      (List.orderedInsert (fun p q => q.2 ≤ p.2) x l).Pairwise (coinRank xs)
  | [], x, _, _ => by simp [List.orderedInsert, coinRank]
  | y :: l, x, hp, hI => by
      simp only [List.orderedInsert]
      by_cases hr : y.2 ≤ x.2
      · rw [if_pos hr]
        refine List.Pairwise.cons ?_ hp
        intro z hz
        rcases List.mem_cons.mp hz with rfl | hzl
        · rcases lt_or_eq_of_le hr with h | h
          · exact Or.inl h
          · exact Or.inr ⟨h.symm, hI z (List.mem_cons_self z l)⟩
        · have hyz := List.rel_of_pairwise_cons hp hzl
          rcases hyz with h | h
          · exact Or.inl (lt_of_lt_of_le h hr)
          · rcases lt_or_eq_of_le hr with h2 | h2
            · exact Or.inl (h.1 ▸ h2)
            · exact Or.inr ⟨by rw [← h2, h.1], hI z (List.mem_cons_of_mem y hzl)⟩
      · rw [if_neg hr]
        have hx2 : x.2 < y.2 := lt_of_not_le hr
        refine List.Pairwise.cons ?_
          (pairwise_coinRank_orderedInsert xs l x (List.Pairwise.of_cons hp)
            (fun z hz => hI z (List.mem_cons_of_mem y hz)))
        intro z hz
        rcases (List.mem_orderedInsert _).mp hz with rfl | hzl
        · exact Or.inl hx2
        · exact List.rel_of_pairwise_cons hp hzl

theorem pairwise_coinRank_insertionSort (xs : List String) :
    ∀ l : List (String × Nat),
      l.Pairwise (fun p q => List.indexOf p.1 xs < List.indexOf q.1 xs) →
      (List.insertionSort (fun p q => q.2 ≤ p.2) l).Pairwise (coinRank xs)
  | [], _ => by simp [List.insertionSort]
  | x :: l, hp => by
      simp only [List.insertionSort]
      apply pairwise_coinRank_orderedInsert xs _ x
        (pairwise_coinRank_insertionSort xs l (List.Pairwise.of_cons hp))
      intro y hy
      exact List.rel_of_pairwise_cons hp ((List.mem_insertionSort _).mp hy)

theorem most_common_top (xs : List String) (n : Nat) :
    (∀ p ∈ most_common n xs, p.1 ∈ xs ∧ p.2 = xs.count p.1)
    ∧ ((most_common n xs).map Prod.fst).Nodup
    ∧ (most_common n xs).length = min n (firstDedup xs).length
    ∧ (most_common n xs).Pairwise (coinRank xs)
    ∧ (∀ c ∈ xs, c ∉ (most_common n xs).map Prod.fst →
        ∀ p ∈ most_common n xs, coinRank xs p (c, xs.count c)) := by
  have hperm := List.perm_insertionSort (fun p q : String × Nat => q.2 ≤ p.2) (counterList xs)
  have hpw := pairwise_coinRank_insertionSort xs (counterList xs) (counterList_pairwise xs)
  simp only [most_common]
  refine ⟨?_, ?_, ?_, ?_, ?_⟩
  · intro p hp
    exact mem_counterList (hperm.mem_iff.mp (List.Sublist.mem hp (List.take_sublist _ _)))
  · rw [List.map_take]
    have h2 : ((List.insertionSort (fun p q : String × Nat => q.2 ≤ p.2)
        (counterList xs)).map Prod.fst).Nodup := by
      rw [(hperm.map Prod.fst).nodup_iff, counterList_map_fst]
      exact firstDedup_nodup xs
    exact List.Sublist.nodup (List.take_sublist _ _) h2
  · rw [List.length_take, hperm.length_eq]
    simp [counterList]
  · exact List.Pairwise.sublist (List.take_sublist _ _) hpw
  · intro c hc hnot p hp
    have hcc : (c, xs.count c) ∈ List.insertionSort (fun p q : String × Nat => q.2 ≤ p.2)
        (counterList xs) := hperm.mem_iff.mpr (counterList_mem_of_mem hc)
    have hsplit := List.take_append_drop n (List.insertionSort
      (fun p q : String × Nat => q.2 ≤ p.2) (counterList xs))
    rw [← hsplit] at hcc hpw
    rcases List.mem_append.mp hcc with h | h
    · exact absurd (List.mem_map.mpr ⟨(c, xs.count c), h, rfl⟩) hnot
    · exact (List.pairwise_append.mp hpw).2.2 p hp _ h

theorem top_affected_coins_eq (rs : List AnalysisRecord) :
    (generate_batch_summary rs).top_affected_coins = most_common 5 (flatCoins rs) := by
  have hco : (rs.foldl summaryStep initSummaryState).all_coins = flatCoins rs := by
    simpa [initSummaryState, flatCoins] using foldl_all_coins rs initSummaryState
  simp only [generate_batch_summary, hco]
  by_cases he : flatCoins rs = []
  · rw [he]
    simp [most_common, counterList, firstDedup]
  · rw [if_neg (by simpa using he)]

/-- C2: `top_affected_coins` is a stable count-then-truncate over the
flattened coin mentions: each reported pair carries the coin's exact mention
count, coins are distinct, exactly `min 5 (distinct coins)` pairs are kept,
they are ordered by `coinRank` (strictly descending count, frequency ties
broken by first occurrence in the flattened mention sequence), and every
omitted distinct coin ranks below every kept one in that same order — in
particular an omitted coin whose count equals a kept coin's count must
first-occur later than the kept coin, so the truncation boundary also obeys
the stable tie-break. -/
theorem claim_C2 (rs : List AnalysisRecord) :
    (∀ p ∈ (generate_batch_summary rs).top_affected_coins,
        p.1 ∈ flatCoins rs ∧ p.2 = (flatCoins rs).count p.1)
    ∧ (((generate_batch_summary rs).top_affected_coins).map Prod.fst).Nodup
    ∧ ((generate_batch_summary rs).top_affected_coins).length
        = min 5 (firstDedup (flatCoins rs)).length
    ∧ ((generate_batch_summary rs).top_affected_coins).Pairwise (coinRank (flatCoins rs))
    ∧ (∀ c ∈ flatCoins rs,
        c ∉ ((generate_batch_summary rs).top_affected_coins).map Prod.fst →
        ∀ p ∈ (generate_batch_summary rs).top_affected_coins,
          coinRank (flatCoins rs) p (c, (flatCoins rs).count c)) := by
  rw [top_affected_coins_eq]
  exact most_common_top (flatCoins rs) 5

/-- C2 witness: on `c2Input` the reported pair ("BTC", 2) is a genuine count
and the full top list shows the stable tie-break (BTC before ETH, both with
2 mentions, BTC first-mentioned); on `c2TieInput` (six coins all tied at one
mention) the five first-occurring coins are kept, the omitted coin F ranks
below the kept coin E under `coinRank` (equal counts, later first
occurrence), and the computed top list confirms the boundary tie-break. -/
theorem claim_C2_witness :
    (("BTC", 2) ∈ (generate_batch_summary c2Input).top_affected_coins
      ∧ "BTC" ∈ flatCoins c2Input ∧ (2 : Nat) = (flatCoins c2Input).count "BTC")
    ∧ (generate_batch_summary c2Input).top_affected_coins
        = [("BTC", 2), ("ETH", 2), ("DOGE", 1)]
    ∧ coinRank (flatCoins c2TieInput) ("E", 1) ("F", (flatCoins c2TieInput).count "F")
    ∧ (generate_batch_summary c2TieInput).top_affected_coins
        = [("A", 1), ("B", 1), ("C", 1), ("D", 1), ("E", 1)] := by
  have h := (claim_C2 c2Input).1 ("BTC", 2) (by decide)
  have htie := (claim_C2 c2TieInput).2.2.2.2 "F" (by decide) (by decide)
    ("E", 1) (by decide)
  exact ⟨⟨by decide, h.1, h.2⟩, by decide, htie, by decide⟩

/-- C1: on any accepted batch, `analyze_batch` returns exactly one result per
input item, in input order (result i is the processing of item i); a scoring
failure yields that item's result with `error` set and Neutral/0 defaults
while every other item is still scored; and the handler answers with exactly
these results. -/
theorem claim_C1 (score : NewsItem → Except String ScoredFields)
    (items : List NewsItem) (h1 : items ≠ []) (h2 : items.length ≤ 50) :
    (analyze_batch score items).length = items.length
    ∧ (∀ i, (analyze_batch score items).get? i = (items.get? i).map (processItem score))
    ∧ (∀ item e, score item = .error e →
        processItem score item = ⟨some "Neutral", some 0, some [], some e⟩)
    ∧ (∀ item r, score item = .ok r →
        processItem score item
          = ⟨some r.impact, some r.confidence, some r.affected_coins, none⟩)
    ∧ handle_batch_analysis score items
        = .ok (analyze_batch score items).enum (analyze_batch score items).length
            (generate_batch_summary (analyze_batch score items)) := by
  refine ⟨by simp [analyze_batch], fun i => List.get?_map _ _ _, ?_, ?_, ?_⟩
  · intro item e he
    simp [processItem, he]
  · intro item r hr
    simp [processItem, hr]
  · unfold handle_batch_analysis
    rw [if_neg (by simpa using h1), if_neg (not_lt.mpr h2)]

/-- C1 witness: on the three-item batch with a failing middle item, the
output has length 3, item 1 carries the error with Neutral/0 defaults, and
items 0 and 2 are scored normally. -/
theorem claim_C1_witness :
    (analyze_batch c1Score c1Items).length = 3
    ∧ (analyze_batch c1Score c1Items).get? 1
        = some ⟨some "Neutral", some 0, some [], some "empty title"⟩
    ∧ (analyze_batch c1Score c1Items).get? 0
        = some ⟨some "Positive", some 80, some ["BTC"], none⟩
    ∧ (analyze_batch c1Score c1Items).get? 2
        = some ⟨some "Positive", some 80, some ["BTC"], none⟩ := by
  have h := claim_C1 c1Score c1Items (by decide) (by decide)
  refine ⟨by rw [h.1]; decide, ?_, ?_, ?_⟩
  · rw [h.2.1 1]; decide
  · rw [h.2.1 0]; decide
  · rw [h.2.1 2]; decide

/-- C6 counterexample: the empty batch has at most 50 items, yet
`_handle_batch_analysis` rejects it with an invalid-params error instead of
accepting it, so "batches of at most 50 items are accepted" is false at
`news_items = []`. -/
theorem claim_C6_counterexample :
    ([] : List NewsItem).length ≤ 50
    ∧ handle_batch_analysis c6Score []
        = .failure ⟨-32602, "Invalid params: news_items array required"⟩
    ∧ ∀ rs ti sm, handle_batch_analysis c6Score [] ≠ .ok rs ti sm := by
  refine ⟨by decide, rfl, ?_⟩
  intro rs ti sm h
  rw [show handle_batch_analysis c6Score []
      = .failure ⟨-32602, "Invalid params: news_items array required"⟩ from rfl] at h
  exact BatchResponse.noConfusion h

/-- C6 (amended): a batch of more than 50 items is rejected with the
invalid-params size error before any analysis; a non-empty batch of at most
50 items passes validation and is analyzed (the empty batch is instead
rejected with the invalid-params "news_items array required" error). -/
theorem claim_C6 (score : NewsItem → Except String ScoredFields)
    (items : List NewsItem) :
    (50 < items.length →
      handle_batch_analysis score items
        = .failure ⟨-32602, "Batch size limit exceeded (max 50 items)"⟩)
    ∧ (items ≠ [] → items.length ≤ 50 →
      handle_batch_analysis score items
        = .ok (analyze_batch score items).enum (analyze_batch score items).length
            (generate_batch_summary (analyze_batch score items))) := by
  constructor
  · intro h
    have hne : items ≠ [] := by
      intro he
      subst he
      simp at h
    unfold handle_batch_analysis
    rw [if_neg (by simpa using hne), if_pos h]
  · intro h1 h2
    unfold handle_batch_analysis
    rw [if_neg (by simpa using h1), if_neg (not_lt.mpr h2)]

/-- C6 witness: a concrete 51-item batch is rejected with the size error and
a concrete 1-item batch is analyzed. -/
theorem claim_C6_witness :
    handle_batch_analysis c6Score (List.replicate 51 ⟨"t", "s", none⟩)
      = .failure ⟨-32602, "Batch size limit exceeded (max 50 items)"⟩
    ∧ handle_batch_analysis c6Score [⟨"t", "s", none⟩]
      = .ok (analyze_batch c6Score [⟨"t", "s", none⟩]).enum
          (analyze_batch c6Score [⟨"t", "s", none⟩]).length
          (generate_batch_summary (analyze_batch c6Score [⟨"t", "s", none⟩])) :=
  ⟨(claim_C6 c6Score _).1 (by decide),
   (claim_C6 c6Score _).2 (by decide) (by decide)⟩

/-- C5: when the trimmed title or summary is empty (or the key is missing),
the single-analysis handler answers with the validation error and the
analyzer is never invoked (the response does not depend on it); when both are
non-empty the handler proceeds to run the analyzer on them. -/
theorem claim_C5 (f g : String → String → Except String ScoredFields)
    (args : SingleArgs) :
    ((pyStrip (args.title.getD "") = "" ∨ pyStrip (args.summary.getD "") = "") →
        handle_single_analysis f args
          = .invalidParams "Invalid params: title and summary required"
        ∧ handle_single_analysis f args = handle_single_analysis g args)
    ∧ (pyStrip (args.title.getD "") ≠ "" → pyStrip (args.summary.getD "") ≠ "" →
        handle_single_analysis f args
          = runSingleAnalysis f (pyStrip (args.title.getD ""))
              (pyStrip (args.summary.getD "")) (pyStrip (args.source.getD ""))) := by
  constructor
  · intro h
    constructor
    · unfold handle_single_analysis
      rw [if_pos h]
    · unfold handle_single_analysis
      rw [if_pos h, if_pos h]
  · intro h1 h2
    unfold handle_single_analysis
    rw [if_neg (not_or.mpr ⟨h1, h2⟩)]

/-- C5 witness: a whitespace-only title is rejected with the validation
error, with the response independent of the analyzer; a request with both
fields non-empty reaches the analyzer. -/
theorem claim_C5_witness :
    (handle_single_analysis c5Analyze ⟨some "  ", some "body", none⟩
      = .invalidParams "Invalid params: title and summary required"
      ∧ handle_single_analysis c5Analyze ⟨some "  ", some "body", none⟩
        = handle_single_analysis (fun _ _ => .error "never called")
            ⟨some "  ", some "body", none⟩)
    ∧ handle_single_analysis c5Analyze ⟨some "head", some "body", some "feed"⟩
      = runSingleAnalysis c5Analyze "head" "body" "feed" := by
  constructor
  · exact (claim_C5 c5Analyze (fun _ _ => .error "never called")
      ⟨some "  ", some "body", none⟩).1 (Or.inl (by decide))
  · have h := (claim_C5 c5Analyze c5Analyze
      ⟨some "head", some "body", some "feed"⟩).2 (by decide) (by decide)
    rw [h]
    decide

theorem wbSearch_iff (text pat : List Char) :
    wbSearch text pat = true ↔ WBMatch text pat := by
  unfold wbSearch WBMatch
  rw [List.any_eq_true]
  constructor
  · rintro ⟨i, _, hcond⟩
    rw [Bool.and_eq_true, Bool.and_eq_true] at hcond
    exact ⟨i, by simpa [lowerMatchAt] using hcond.1.2, hcond.1.1, hcond.2⟩
  · rintro ⟨i, hm, hb1, hb2⟩
    refine ⟨i, ?_, ?_⟩
    · rw [List.mem_range]
      by_contra hgt
      push_neg at hgt
      have hlen : text.length < i := by omega
      have h0 : i ≠ 0 := by omega
      have hl : isWordAt text (i - 1) = false := by
        unfold isWordAt
        rw [List.getD_eq_default _ _ (by omega)]
        decide
      have hr : isWordAt text i = false := by
        unfold isWordAt
        rw [List.getD_eq_default _ _ (by omega)]
        decide
      unfold boundaryAt at hb1
      rw [if_neg h0, hl, hr] at hb1
      exact Bool.noConfusion hb1
    · rw [Bool.and_eq_true, Bool.and_eq_true]
      exact ⟨⟨hb1, by simpa [lowerMatchAt] using hm⟩, hb2⟩

/-- C7: the keyword inspection reports exactly the lexicon entries whose
phrase occurs in the text as a case-insensitive word-boundary-anchored match,
pairing each reported phrase with its own lexicon weight; a phrase all of
whose occurrences lack a boundary on one side (e.g. it appears only inside a
longer word) is not reported; the weight-free report lists exactly the same
phrases. -/
theorem claim_C7 (lexicon : List (String × Rat)) (text : List Char) :
    (∀ kw w, (kw, w) ∈ matched_keywords lexicon text
        ↔ ((kw, w) ∈ lexicon ∧ WBMatch text kw.toList))
    ∧ (∀ kw w, (kw, w) ∈ lexicon →
        (∀ i, ((text.drop i).take kw.toList.length).map Char.toLower
            = kw.toList.map Char.toLower →
          boundaryAt text i = false ∨ boundaryAt text (i + kw.toList.length) = false) →
        (kw, w) ∉ matched_keywords lexicon text)
    ∧ (∀ kw, kw ∈ matched_keyword_names lexicon text
        ↔ ∃ w, (kw, w) ∈ lexicon ∧ WBMatch text kw.toList) := by
  have hmain : ∀ kw w, (kw, w) ∈ matched_keywords lexicon text
      ↔ ((kw, w) ∈ lexicon ∧ WBMatch text kw.toList) := by
    intro kw w
    unfold matched_keywords
    rw [List.mem_filter]
    exact and_congr_right (fun _ => wbSearch_iff text kw.toList)
  refine ⟨hmain, ?_, ?_⟩
  · intro kw w _ hnone hmem
    obtain ⟨i, hm, hb1, hb2⟩ := ((hmain kw w).mp hmem).2
    rcases hnone i hm with h | h
    · rw [hb1] at h
      exact Bool.noConfusion h
    · rw [hb2] at h
      exact Bool.noConfusion h
  · intro kw
    unfold matched_keyword_names
    rw [List.mem_map]
    constructor
    · rintro ⟨⟨kw2, w⟩, hmem, rfl⟩
      exact ⟨w, (hmain kw2 w).mp hmem⟩
    · rintro ⟨w, hmem, hwb⟩
      exact ⟨(kw, w), (hmain kw w).mpr ⟨hmem, hwb⟩, rfl⟩

/-- C7 witness: on the concrete lexicon and texts, ("eth", 2) is reported
(with its weight) for the boundary-anchored text, and the regex finds a
boundary-anchored occurrence; on the substring-only text nothing is
reported. -/
theorem claim_C7_witness :
    WBMatch c7Text (String.toList "eth")
    ∧ ("eth", (2 : Rat)) ∈ matched_keywords c7Lexicon c7Text
    ∧ ("ban", (1 : Rat)) ∈ matched_keywords c7Lexicon c7Text
    ∧ matched_keywords c7Lexicon c7TextSub = []
    ∧ matched_keyword_names c7Lexicon c7Text = ["eth", "ban"] := by
  refine ⟨(((claim_C7 c7Lexicon c7Text).1 "eth" 2).mp (by decide)).2,
    by decide, by decide, by decide, by decide⟩
